import Mathlib

/-!
Verification of the Catalog Resolution & Library-Sync Pipeline of the
music-mcp repository (services/musickit-client.ts and
tools/create-catalog-playlist.ts), shallowly embedded in Lean.

JavaScript strings are modelled as lists of Unicode code points (`Str`),
and the external effects (catalog HTTP search, library-mutation HTTP
calls, the AppleScript automation surface) as explicit oracles, so that
every function of the pipeline becomes a pure, executable Lean function
of its inputs and the oracles.
-/

namespace MusicMcp

/-- JavaScript strings, modelled as lists of Unicode code points. -/
abbrev Str := List Nat

/-- Code points of a Lean string literal, used to transcribe the string
literals of the source. -/
def strChars (s : String) : Str := s.data.map Char.toNat

/-- Decimal rendering of a natural, for the interpolated messages of the
source (template literals such as `${trackIds.length}`). -/
def natStr (n : Nat) : Str := strChars (Nat.repr n)

/-- The white-space class of JavaScript (`/\s/`, also the class trimmed by
`String.prototype.trim`): tab, LF, VT, FF, CR, space, NBSP, and the
Unicode space separators, line/paragraph separators and BOM. -/
def isJsSpace (c : Nat) : Bool :=
  c = 9 ∨ c = 10 ∨ c = 11 ∨ c = 12 ∨ c = 13 ∨ c = 32 ∨ c = 160 ∨ c = 5760 ∨
    (8192 ≤ c ∧ c ≤ 8202) ∨ c = 8232 ∨ c = 8233 ∨ c = 8239 ∨ c = 8287 ∨
    c = 12288 ∨ c = 65279

/-- The word-character class of JavaScript regexes (`/\w/`): ASCII
letters, digits and underscore. -/
def isWordChar (c : Nat) : Bool :=
  (48 ≤ c ∧ c ≤ 57) ∨ (65 ≤ c ∧ c ≤ 90) ∨ (97 ≤ c ∧ c ≤ 122) ∨ c = 95

/-- One code point of `String.prototype.toLowerCase`, modelled on the
ASCII range (the platform's full Unicode case map restricted to the code
points exercised by this development). -/
def toLowerChar (c : Nat) : Nat := if 65 ≤ c ∧ c ≤ 90 then c + 32 else c

/-- `s.toLowerCase()` of the platform, on the modelled code points. -/
def lowerStr (s : Str) : Str := s.map toLowerChar

/-- `isPreOf p s`: `p` is a leading segment of `s` (JavaScript
`s.startsWith(p)`). -/
def isPreOf : Str → Str → Bool
  | [], _ => true
  | _ :: _, [] => false
  | c :: p, d :: s => c = d && isPreOf p s

/-- `a.includes(b)` of JavaScript: `b` occurs contiguously inside `a`. -/
def includesStr : Str → Str → Bool
  | a, b =>
    match a with
    | [] => isPreOf b []
    | _ :: t => isPreOf b a || includesStr t b

/-- `String.prototype.trim`: drop JS white space from both ends. -/
def trimStr (s : Str) : Str :=
  ((s.dropWhile isJsSpace).reverse.dropWhile isJsSpace).reverse

/-- The `.replace(/[̀-ͯ]/g, "")` step of `normalizeString`:
remove the combining diacritical marks block U+0300–U+036F. -/
def stripCombining (s : Str) : Str :=
  s.filter (fun c => decide (c < 768 ∨ 879 < c))

/-- `MusicKitClient.normalizeString` (musickit-client.ts):
`str.normalize("NFD").replace(/[̀-ͯ]/g, "").trim()`.  The
platform's Unicode canonical decomposition is not code of this
repository; it enters the model as the explicit parameter `nfd`, which
the theorems instantiate with `nfdFull`, the NFD algorithm itself over
explicit character data. -/
def normalizeString (nfd : Str → Str) (s : Str) : Str :=
  trimStr (stripCombining (nfd s))

/-! ### The NFD algorithm

`String.prototype.normalize("NFD")` is platform code, not code of this
repository.  The model implements the Unicode NFD algorithm itself
(UAX #15): full canonical decomposition followed by the Canonical
Ordering Algorithm — the stable reordering of non-starters by canonical
combining class — parameterized by the character data, namely the fully
expanded canonical decomposition `decomp` and the combining-class map
`ccc`. -/

/-- One step of the Canonical Ordering Algorithm, on the reversed list
of already processed characters: a non-starter `c` moves backward past
every immediately preceding character of strictly higher combining
class.  It never moves past a starter (class 0) and never past an equal
class, so the reordering is stable, as Unicode requires; a starter
never moves. -/
def insertMark (ccc : Nat → Nat) (c : Nat) : Str → Str
  | [] => [c]
  | d :: rest =>
    if 0 < ccc c ∧ ccc c < ccc d then d :: insertMark ccc c rest
    else c :: d :: rest

/-- The Canonical Ordering Algorithm: process the characters in order,
placing each into the reversed accumulator with `insertMark`. -/
def canonicalOrderAux (ccc : Nat → Nat) : Str → Str → Str
  | acc, [] => acc.reverse
  | acc, c :: rest => canonicalOrderAux ccc (insertMark ccc c acc) rest

/-- Canonical ordering of a string by combining class. -/
def canonicalOrder (ccc : Nat → Nat) (l : Str) : Str :=
  canonicalOrderAux ccc [] l

/-- Characterwise full canonical decomposition. -/
def decomposeStr (decomp : Nat → List Nat) : Str → Str
  | [] => []
  | c :: rest => decomp c ++ decomposeStr decomp rest

/-- The NFD algorithm: full canonical decomposition, then canonical
ordering. -/
def nfdFull (decomp : Nat → List Nat) (ccc : Nat → Nat) (s : Str) : Str :=
  canonicalOrder ccc (decomposeStr decomp s)

/-- The canonical-order relation between adjacent characters: the right
one is a starter, or the classes do not descend.  A string is
canonically ordered exactly when every adjacent pair satisfies it
(`List.Chain'`). -/
def markLE (ccc : Nat → Nat) (x y : Nat) : Prop :=
  ccc y = 0 ∨ ccc x ≤ ccc y

/-- Splitting on runs of white space (JavaScript `.split(/\s+/)` applied
after a `.trim()`, so that no empty fragments of interest remain; the one
empty fragment JavaScript produces for the empty string is discarded by
the length filter downstream, and the model drops it here). -/
def wordsAux (cur : Str) : Str → List Str
  | [] => if cur = [] then [] else [cur.reverse]
  | c :: rest =>
    if isJsSpace c then (if cur = [] then [] else [cur.reverse]) ++ wordsAux [] rest
    else wordsAux (c :: cur) rest

/-- Maximal runs of non-white-space characters of `s`, in order. -/
def splitWords (s : Str) : List Str := wordsAux [] s

/-- The stop words of `fuzzyMatch`'s `clean`. -/
def stopWords : List Str :=
  [strChars ("the"), strChars ("a"), strChars ("an"), strChars ("feat"),
   strChars ("ft"), strChars ("featuring")]

/-- The `clean` helper inside `MusicKitClient.fuzzyMatch`:
`s.replace(/[^\w\s]/g, "").replace(/\b(the|a|an|feat|ft|featuring)\b/gi, "").trim().split(/\s+/).filter(w => w.length > 2)`.
After the first replace the string holds only word characters and white
space, so the `\b`-delimited stop-word replace removes exactly the
maximal word-character runs equal (case-insensitively) to a stop word;
the model therefore tokenizes first and filters tokens, which yields the
same word list.  Note that `clean` performs no lowercasing of the kept
words: only the stop-word comparison is case-insensitive (`gi`). -/
def clean (s : Str) : List Str :=
  ((splitWords (s.filter (fun c => isWordChar c || isJsSpace c))).filter
      (fun word => !(stopWords.contains (lowerStr word)))).filter
    (fun word => 2 < word.length)

/-- `MusicKitClient.fuzzyMatch`: the count of words of the FIRST cleaned
list that contain or are contained in some word of the second cleaned
list, compared against `Math.min(words1.length, words2.length) * 0.6`.
The float comparison `hits >= min * 0.6` agrees with the exact rational
comparison `5 * hits ≥ 3 * min` for every pair of natural numbers in
range (the double `min * 0.6` rounds to the exact value whenever
`3 * min` is divisible by 5, and the rounding error cannot bridge an
integer otherwise), so the model states it over naturals. -/
def fuzzyMatch (s1 s2 : Str) : Bool :=
  let words1 := clean s1
  let words2 := clean s2
  let hits :=
    (words1.filter (fun w1 =>
      words2.any (fun w2 => includesStr w2 w1 || includesStr w1 w2))).length
  3 * min words1.length words2.length ≤ 5 * hits

/-- The `attributes` record of a catalog track (musickit-client.ts,
interface `CatalogTrack`); absent optional fields are `none`. -/
structure TrackAttributes where
  name : Str
  artistName : Str
  albumName : Str
  durationInMillis : Nat
  releaseDate : Option Str
  genreNames : List Str
  isrc : Option Str
  url : Option Str
  deriving DecidableEq

/-- A track of the remote catalog (interface `CatalogTrack`; the constant
discriminator field `type: "songs"` is omitted). -/
structure CatalogTrack where
  id : Str
  attributes : TrackAttributes
  deriving DecidableEq

/-- JavaScript truthiness of an optional string: present and non-empty. -/
def truthy : Option Str → Bool
  | none => false
  | some s => s ≠ []

/-- `MusicKitClient.scoreTrackMatch`: fixed-weight score of a candidate
against the target track / optional target artist.  The source computes
with JavaScript doubles over the weights 0.1 / 0.2 / 0.3 / 0.5, a cap at
1.0 and (at the caller) an acceptance threshold 0.4; all reachable
values are exact multiples of one tenth, and every double-precision sum
and comparison the client performs agrees exactly with decimal
arithmetic on these multiples.  The model therefore represents a score
`s` by the natural number `10·s`: the weights become 1 / 2 / 3 / 5, the
cap `Math.min(score, 1.0)` becomes `min score 10`, and the threshold
`0.4` becomes `4`.  `scoreAsRat` recovers the score itself. -/
def scoreTrackMatch (track : CatalogTrack) (targetTrack : Str)
    (targetArtist : Option Str) : Nat :=
  let trackName := lowerStr track.attributes.name
  let artistName := lowerStr track.attributes.artistName
  let targetTrackLower := lowerStr targetTrack
  let targetArtistLower := lowerStr (targetArtist.getD [])
  let trackScore : Nat :=
    if trackName = targetTrackLower then 5
    else if includesStr trackName targetTrackLower ||
        includesStr targetTrackLower trackName then 3
    else if fuzzyMatch trackName targetTrackLower then 2
    else 0
  let artistScore : Nat :=
    if truthy targetArtist then
      if artistName = targetArtistLower then 5
      else if includesStr artistName targetArtistLower ||
          includesStr targetArtistLower artistName then 3
      else if fuzzyMatch artistName targetArtistLower then 1
      else 0
    else 2
  min (trackScore + artistScore) 10

/-- The score of `scoreTrackMatch` as the rational the source computes
(the tenths value divided by ten). -/
def scoreAsRat (track : CatalogTrack) (targetTrack : Str)
    (targetArtist : Option Str) : ℚ :=
  (scoreTrackMatch track targetTrack targetArtist : ℚ) / 10

/-! ### SmartResolver: `MusicKitClient.smartSearchTrack` -/

/-- The space character, for the template literals of the source. -/
def sp : Str := [32]

/-- The ordered list of query variants built at the top of
`smartSearchTrack` (musickit-client.ts lines 160–188).  The source
guards the four-variant form by JavaScript truthiness of both
`artistName` and `normalizedArtist` (`if (artistName && normalizedArtist)`),
so a supplied artist that is empty, or that normalizes to the empty
string, falls back to the track-only variants. -/
def smartQueries (nfd : Str → Str) (trackName : Str)
    (artistName : Option Str) : List Str :=
  let normalizedTrack := normalizeString nfd trackName
  match artistName with
  | some a =>
    let normalizedArtist := normalizeString nfd a
    if a ≠ [] ∧ normalizedArtist ≠ [] then
      [normalizedTrack ++ sp ++ normalizedArtist,
       normalizedArtist ++ sp ++ normalizedTrack,
       normalizedTrack, normalizedArtist] ++
        (if normalizedTrack ≠ trackName ∨ normalizedArtist ≠ a then
          [trackName ++ sp ++ a, a ++ sp ++ trackName, trackName, a]
        else [])
    else
      normalizedTrack :: (if normalizedTrack ≠ trackName then [trackName] else [])
  | none =>
    normalizedTrack :: (if normalizedTrack ≠ trackName then [trackName] else [])

/-- Outcome of one `searchCatalog` call as `smartSearchTrack` observes
it: a thrown transport/API error, or the parsed list of tracks. -/
inductive SearchResp where
  | err : SearchResp
  | ok : List CatalogTrack → SearchResp

/-- The best-scored result of one response: the source maps every track
to its score, sorts by score descending with a stable sort
(`scoredResults.sort((a, b) => b.score - a.score)`; V8's sort is
stable), and takes element 0 — i.e. the earliest track of maximal
score, returned here with its score. -/
def best1 (tt : Str) (ta : Option Str) (t : CatalogTrack)
    (ts : List CatalogTrack) : CatalogTrack × Nat :=
  ts.foldl
    (fun acc u =>
      let su := scoreTrackMatch u tt ta
      if acc.2 < su then (u, su) else acc)
    (t, scoreTrackMatch t tt ta)

/-- What one iteration of the query loop concludes from one response:
`none` to continue with the next variant (thrown error, zero results, or
best score below the 0.4 threshold), or the accepted best match. -/
def stepFound (tt : Str) (ta : Option Str) : SearchResp → Option CatalogTrack
  | .err => none
  | .ok [] => none
  | .ok (t :: ts) =>
    let b := best1 tt ta t ts
    if 4 ≤ b.2 then some b.1 else none

/-- The query loop of `smartSearchTrack` over a list of variants.
`resp j` is the outcome of the `j`-th `searchCatalog` call of this
resolution.  Returns the list of `(query, limit)` pairs actually issued
(every call passes limit 10) and the result. -/
def runQueries (resp : Nat → SearchResp) (tt : Str) (ta : Option Str) :
    List Str → Nat → List (Str × Nat) × Option CatalogTrack
  | [], _ => ([], none)
  | q :: rest, j =>
    match stepFound tt ta (resp j) with
    | some t => ([(q, 10)], some t)
    | none =>
      let r := runQueries resp tt ta rest (j + 1)
      ((q, 10) :: r.1, r.2)

/-- `MusicKitClient.smartSearchTrack`, as a function of the catalog
oracle `resp`: issues the query variants in order and returns the trace
of issued `(query, limit)` calls together with the result
(`CatalogTrack | null`). -/
def smartSearchTrack (nfd : Str → Str) (resp : Nat → SearchResp)
    (trackName : Str) (artistName : Option Str) :
    List (Str × Nat) × Option CatalogTrack :=
  runQueries resp trackName artistName (smartQueries nfd trackName artistName) 0

/-- Spec-side definition, following §4.4 of the specification word for
word: «build an ordered list of query-string variants — normalized
"(track) (artist)", "(artist) (track)", normalized track alone,
normalized artist alone, then (only if normalization changed the input)
the same four variants using the raw un-normalized strings».  Stated for
a supplied (track, artist) pair, with no truthiness caveat. -/
def specVariants (nfd : Str → Str) (track artist : Str) : List Str :=
  let nt := normalizeString nfd track
  let na := normalizeString nfd artist
  [nt ++ sp ++ na, na ++ sp ++ nt, nt, na] ++
    (if nt ≠ track ∨ na ≠ artist then
      [track ++ sp ++ artist, artist ++ sp ++ track, track, artist]
    else [])

/-! ### Library-mutating client calls -/

/-- Outcome of one `fetch` the library-mutation calls perform: a 2xx
response, a non-2xx response (carrying the composed
`status statusText - body` text), or a thrown error (carrying its
message). -/
inductive FetchOutcome where
  | ok : FetchOutcome
  | notOk : Str → FetchOutcome
  | threw : Str → FetchOutcome
  deriving DecidableEq

/-- Interface `AddToLibraryResult` of musickit-client.ts. -/
structure AddToLibraryResult where
  success : Bool
  message : Str
  trackId : Option Str
  trackIds : Option (List Str)
  deriving DecidableEq

/-- `MusicKitClient.addTracksToLibrary` (musickit-client.ts lines
404–469), as a function of the token configuration and the fetch
oracle.  The source tests the tokens by JavaScript truthiness, so an
empty-string token counts as missing.  The second component records
whether an HTTP request was performed. -/
def addTracksToLibrary (dev user : Str) (fetch : FetchOutcome)
    (trackIds : List Str) : AddToLibraryResult × Bool :=
  if dev = [] then
    (⟨false, strChars ("MusicKit developer token not configured"), none, none⟩,
      false)
  else if user = [] then
    (⟨false,
      strChars
        ("User token required to add tracks to library. User must authenticate with Apple Music."),
      none, none⟩, false)
  else if trackIds = [] then
    (⟨true, strChars ("No tracks to add"), none, some []⟩, false)
  else
    match fetch with
    | .ok =>
      (⟨true,
        strChars ("Successfully added ") ++ natStr trackIds.length ++
          strChars (" track(s) to library"),
        none, some trackIds⟩, true)
    | .notOk e =>
      (⟨false, strChars ("Failed to add tracks to library: ") ++ e, none,
        none⟩, true)
    | .threw m =>
      (⟨false, strChars ("Error adding tracks to library: ") ++ m, none,
        none⟩, true)

/-- Interface `CreatePlaylistResult` of musickit-client.ts. -/
structure CreatePlaylistResult where
  success : Bool
  message : Str
  playlistId : Option Str
  playlistName : Option Str
  deriving DecidableEq

/-- `MusicKitClient.createPlaylistWithTracks` (musickit-client.ts lines
539–624), as a function of the token configuration, the fetch oracle
and the playlist id the 2xx response body carries
(`data.data?.[0]?.id`). -/
def createPlaylistWithTracks (dev user : Str) (fetch : FetchOutcome)
    (respPlaylistId : Option Str) (name : Str) (trackIds : List Str)
    (description : Option Str) : CreatePlaylistResult :=
  if dev = [] then
    ⟨false, strChars ("MusicKit developer token not configured"), none, none⟩
  else if user = [] then
    ⟨false,
      strChars
        ("User token required to create playlists. User must authenticate with Apple Music."),
      none, none⟩
  else
    match fetch with
    | .ok =>
      ⟨true,
        strChars ("Successfully created playlist \"") ++ name ++
          strChars ("\" with ") ++ natStr trackIds.length ++
          strChars (" track(s)"),
        respPlaylistId, some name⟩
    | .notOk e =>
      ⟨false, strChars ("Failed to create playlist: ") ++ e, none, none⟩
    | .threw m =>
      ⟨false, strChars ("Error creating playlist: ") ++ m, none, none⟩

/-- `MusicKitClient.getLibrarySearchTerms` (musickit-client.ts lines
646–654): the ordered local search-term variants derived from a catalog
track. -/
def getLibrarySearchTerms (track : CatalogTrack) : List Str :=
  [track.attributes.name,
   track.attributes.name ++ sp ++ track.attributes.artistName,
   track.attributes.artistName ++ sp ++ track.attributes.name,
   track.attributes.name ++ sp ++ track.attributes.albumName]

/-! ### The sync pipeline: `handleCreateCatalogPlaylist`
(tools/create-catalog-playlist.ts lines 91–315) -/

/-- One entry of `CreateCatalogPlaylistInput.tracks`. -/
structure TrackRequest where
  track : Str
  artist : Str
  deriving DecidableEq

/-- One entry of the handler's `foundTracks` working array. -/
structure FoundTrack where
  id : Str
  name : Str
  artist : Str
  requestedTrack : Str
  requestedArtist : Str
  deriving DecidableEq

/-- Outcome of one `executeAppleScript` invocation: a thrown error, or
the raw standard output of `osascript` (which `executeAppleScript`
trims before returning). -/
inductive ScriptResp where
  | err : Str → ScriptResp
  | ok : Str → ScriptResp
  deriving DecidableEq

/-- Whether one AppleScript invocation counts as a success for the
handler: it must not throw, and its trimmed output must not start with
`"Error"` (`if (!result.startsWith("Error"))`). -/
def scriptOk (r : ScriptResp) : Bool :=
  match r with
  | .err _ => false
  | .ok out => !(isPreOf (strChars ("Error")) (trimStr out))

/-- The per-item fallback loop of step 4: invoke the automation surface
with each derived search term in turn, stopping at the first success.
`script j` is the outcome of the `j`-th invocation for this item.
Returns whether the item was added, and the terms actually invoked. -/
def tryTerms (script : Nat → ScriptResp) : List Str → Nat → Bool × List Str
  | [], _ => (false, [])
  | term :: rest, j =>
    if scriptOk (script j) then (true, [term])
    else
      let r := tryTerms script rest (j + 1)
      (r.1, term :: r.2)

/-- The catalog track the handler rebuilds for `getLibrarySearchTerms`
at step 4 (create-catalog-playlist.ts lines 230–242): only `id`, `name`
and `artistName` survive from the search result; `albumName` is the
empty string, `durationInMillis` 0, `releaseDate` and `url` empty,
`genreNames` empty, `isrc` absent. -/
def rebuiltTrack (ft : FoundTrack) : CatalogTrack :=
  ⟨ft.id, ⟨ft.name, ft.artist, [], 0, some [], [], none, some []⟩⟩

/-- Step 4 of the handler: for each found track, in order, run the
per-item fallback loop and tally.  `script k` is the invocation oracle
of the `k`-th found item.  Returns the number of tracks added to the
playlist, the `failedTracks` list (the requested names of the items for
which every term failed, in order), and the concatenated trace of
invoked search terms. -/
def step4 (script : Nat → Nat → ScriptResp) :
    List FoundTrack → Nat → Nat × List TrackRequest × List Str
  | [], _ => (0, [], [])
  | ft :: rest, k =>
    let r := tryTerms (script k) (getLibrarySearchTerms (rebuiltTrack ft)) 0
    let s := step4 script rest (k + 1)
    ((if r.1 then 1 else 0) + s.1,
     (if r.1 then [] else [⟨ft.requestedTrack, ft.requestedArtist⟩]) ++ s.2.1,
     r.2 ++ s.2.2)

/-- The environment of one handler run: the token configuration the
client is created with, and the oracles for every external effect.
`search i` is what `smartSearchTrack` returns for the `i`-th request
(`null` both for "no match" and for a thrown search error, which the
handler catches and records as `null`); `script i j` is the outcome of
the `j`-th AppleScript invocation for the `i`-th found item. -/
structure PipelineEnv where
  developerToken : Str
  userToken : Str
  search : Nat → Option CatalogTrack
  addFetch : FetchOutcome
  createFetch : FetchOutcome
  createPlaylistId : Option Str
  script : Nat → Nat → ScriptResp

/-- The `searchResults.forEach` of step 1 that partitions the requests:
requests whose search produced a track become `FoundTrack` entries (in
input order), the rest are collected into `notFoundTracks` (in input
order).  `i` is the index of the first request of the remaining list. -/
def splitResults (env : PipelineEnv) :
    List TrackRequest → Nat → List FoundTrack × List TrackRequest
  | [], _ => ([], [])
  | req :: rest, i =>
    let s := splitResults env rest (i + 1)
    match env.search i with
    | some t =>
      (⟨t.id, t.attributes.name, t.attributes.artistName, req.track,
        req.artist⟩ :: s.1, s.2)
    | none => (s.1, req :: s.2)

/-- The `data` payload of `CreateCatalogPlaylistOutput`. -/
structure PipelineData where
  playlistId : Option Str
  playlistName : Str
  tracksAdded : Nat
  tracksNotFound : List TrackRequest
  deriving DecidableEq

/-- Interface `CreateCatalogPlaylistOutput`. -/
structure PipelineOutput where
  success : Bool
  message : Str
  data : Option PipelineData
  error : Option Str
  deriving DecidableEq

/-- The final success message of the handler. -/
def successMessage (playlistName : Str) (addedCount notFoundCount : Nat) :
    Str :=
  if 0 < notFoundCount then
    strChars ("Created playlist \"") ++ playlistName ++ strChars ("\" with ") ++
      natStr addedCount ++ strChars (" track(s). ") ++ natStr notFoundCount ++
      strChars (" track(s) could not be added.")
  else
    strChars ("Successfully created playlist \"") ++ playlistName ++
      strChars ("\" with ") ++ natStr addedCount ++ strChars (" track(s)")

/-- `handleCreateCatalogPlaylist` (create-catalog-playlist.ts lines
91–315), as a function of the environment.  Returns the output record
together with the trace of AppleScript search terms invoked at step 4
(empty when step 4 is never reached). -/
def handleCreateCatalogPlaylist (env : PipelineEnv) (playlistName : Str)
    (tracks : List TrackRequest) (description : Option Str) :
    PipelineOutput × List Str :=
  if env.developerToken = [] then
    (⟨false,
      strChars
        ("Apple Music catalog access is not configured. Set APPLE_MUSIC_DEVELOPER_TOKEN environment variable."),
      none, some (strChars ("MusicKit not configured"))⟩, [])
  else
    let s := splitResults env tracks 0
    if s.1 = [] then
      (⟨false,
        strChars ("No tracks found in catalog for any of the search queries"),
        some ⟨none, playlistName, 0, s.2⟩,
        some (strChars ("No tracks found"))⟩, [])
    else
      let addResult :=
        (addTracksToLibrary env.developerToken env.userToken env.addFetch
          (s.1.map FoundTrack.id)).1
      if addResult.success then
        let createResult :=
          createPlaylistWithTracks env.developerToken env.userToken
            env.createFetch env.createPlaylistId playlistName [] description
        if createResult.success then
          let r := step4 env.script s.1 0
          let totalNotFound := s.2 ++ r.2.1
          (⟨true, successMessage playlistName r.1 totalNotFound.length,
            some ⟨createResult.playlistId, playlistName, r.1, totalNotFound⟩,
            none⟩, r.2.2)
        else
          (⟨false,
            strChars ("Tracks added to library but failed to create playlist: ")
              ++ createResult.message,
            some ⟨none, playlistName, 0, s.2⟩, some createResult.message⟩, [])
      else
        (⟨false,
          strChars ("Found tracks but failed to add to library: ") ++
            addResult.message,
          some ⟨none, playlistName, 0, s.2⟩, some addResult.message⟩, [])

/-! ### Per-request outcome classification

The specification's `SyncOutcome` partition is stated over the original
requests.  The handler's output only carries the tally (`tracksAdded`)
and the combined `tracksNotFound` list, so the classification of each
request index is recovered here directly from the environment and then
proved to agree with the handler's tallies. -/

/-- Per original request, one of the three outcomes of §3 of the
specification. -/
inductive SyncOutcome where
  | addedToCollection : SyncOutcome
  | foundButNotAdded : SyncOutcome
  | notFoundInCatalog : SyncOutcome
  deriving DecidableEq

/-- The position of request `i` within `foundTracks`: the number of
earlier requests whose search produced a track. -/
def foundPos (env : PipelineEnv) (i : Nat) : Nat :=
  ((List.range i).filter (fun j => (env.search j).isSome)).length

/-- The rebuilt catalog track of step 4, expressed from the search
result itself (the requested names the handler also stores do not enter
`getLibrarySearchTerms`). -/
def rebuiltOf (t : CatalogTrack) : CatalogTrack :=
  ⟨t.id,
    ⟨t.attributes.name, t.attributes.artistName, [], 0, some [], [], none,
      some []⟩⟩

/-- Outcome of request `i` in a run that reaches step 4: not found in
the catalog if its search produced nothing, otherwise added to the
collection or not according to the per-item fallback loop of its found
position. -/
def outcomeAt (env : PipelineEnv) (i : Nat) : SyncOutcome :=
  match env.search i with
  | none => .notFoundInCatalog
  | some t =>
    if (tryTerms (env.script (foundPos env i))
        (getLibrarySearchTerms (rebuiltOf t)) 0).1 then
      .addedToCollection
    else .foundButNotAdded

/-- The request indices reported added to the collection. -/
def addedIdx (env : PipelineEnv) (n : Nat) : List Nat :=
  (List.range n).filter (fun i => outcomeAt env i = .addedToCollection)

/-- The request indices that resolved but failed to sync. -/
def failedIdx (env : PipelineEnv) (n : Nat) : List Nat :=
  (List.range n).filter (fun i => outcomeAt env i = .foundButNotAdded)

/-- The request indices never found in the catalog. -/
def notFoundIdx (env : PipelineEnv) (n : Nat) : List Nat :=
  (List.range n).filter (fun i => outcomeAt env i = .notFoundInCatalog)

/-- `firstOkAux script n j`: the index of the first successful
AppleScript invocation among `script j, …, script (j + n - 1)`, if
any. -/
def firstOkAux (script : Nat → ScriptResp) : Nat → Nat → Option Nat
  | 0, _ => none
  | n + 1, j => if scriptOk (script j) then some j else firstOkAux script n (j + 1)

/-- The index of the first successful AppleScript invocation among the
first `n` for one item, if any. -/
def firstOk (script : Nat → ScriptResp) (n : Nat) : Option Nat :=
  firstOkAux script n 0

/-! ### Spec-side definitions for the fuzzy-overlap tier -/

/-- Spec-side `clean`, exactly as claimed: lowercase, strip all
non-word/non-space characters, remove the stop words, discard words of
length ≤ 2. -/
def specClean (s : Str) : List Str :=
  ((splitWords ((lowerStr s).filter (fun c => isWordChar c || isJsSpace c))).filter
      (fun word => !(stopWords.contains word))).filter
    (fun word => 2 < word.length)

/-- Spec-side fuzzy tier, exactly as claimed: true when at least 60% of
the smaller word-list's words are found as substrings in (words of) the
other word-list. -/
def specFuzzyMatch (s1 s2 : Str) : Bool :=
  let words1 := specClean s1
  let words2 := specClean s2
  let small := if words1.length ≤ words2.length then words1 else words2
  let large := if words1.length ≤ words2.length then words2 else words1
  3 * small.length ≤ 5 * (small.filter (fun w => large.any (fun v => includesStr v w))).length

/-- The amended description of the fuzzy tier: the words counted are
those of the FIRST cleaned list (not of the smaller one), a word counts
when it contains or is contained in some word of the second list, the
count is compared against 60% of the smaller list's size, and `clean`
performs no lowercasing. -/
def amendedFuzzyMatch (s1 s2 : Str) : Bool :=
  let words1 := clean s1
  let words2 := clean s2
  3 * min words1.length words2.length ≤
    5 * words1.countP (fun w1 =>
      words2.any (fun w2 => includesStr w2 w1 || includesStr w1 w2))

/-! ### Concrete inputs used by the witnesses and counterexamples -/

/-- A concrete catalog track used by witnesses. -/
def exampleTrack : CatalogTrack :=
  ⟨strChars ("1440783617"),
    ⟨strChars ("Creep"), strChars ("Radiohead"), strChars ("Pablo Honey"),
      238640, none, [], none, none⟩⟩

/-- A concrete catalog track whose album name is non-empty, used to
exhibit the dropped album component of step 4. -/
def albumTrack : CatalogTrack :=
  ⟨strChars ("42"),
    ⟨strChars ("Song"), strChars ("Artist"), strChars ("Album"), 1000, none,
      [], none, none⟩⟩

/-- An environment whose step-2 bulk library add fails with a non-2xx
response while the single request resolves. -/
def envBatchAddFails : PipelineEnv :=
  ⟨strChars ("devtoken"), strChars ("usertoken"), fun _ => some exampleTrack,
    .notOk (strChars ("403 Forbidden - denied")), .ok, none,
    fun _ _ => .ok (strChars ("Added"))⟩

/-- An environment where every request resolves to `albumTrack`, both
HTTP calls succeed, and every AppleScript invocation reports an
`"Error"`-prefixed result, so that step 4 exhausts all four terms. -/
def envAllTermsFail : PipelineEnv :=
  ⟨strChars ("devtoken"), strChars ("usertoken"), fun _ => some albumTrack,
    .ok, .ok, some (strChars ("p.123")),
    fun _ _ => .ok (strChars ("Error: No tracks found"))⟩

/-- The canonical combining classes of the characters of the C9
counterexample, as recorded in UnicodeData.txt: U+0654 ARABIC HAMZA
ABOVE (1620) has class 230, U+0655 ARABIC HAMZA BELOW (1621) has class
220, U+034F COMBINING GRAPHEME JOINER (847) — a character INSIDE the
stripped block U+0300–U+036F — has class 0, and LATIN SMALL LETTER A
(97) has class 0.  None of the four has a canonical decomposition, so
the identity decomposition map is exact for them. -/
def cccArabic (c : Nat) : Nat :=
  if c = 1620 then 230 else if c = 1621 then 220 else 0

/-- A combining-class model in which the whole stripped block
U+0300–U+036F consists of non-starters (class 230, the class of most of
the block), used by the C9 witness. -/
def cccBlockMarks (c : Nat) : Nat :=
  if 768 ≤ c ∧ c ≤ 879 then 230 else 0

/-- An environment for a fully successful run over two requests: the
first resolves and syncs on the first term, the second request's search
finds nothing. -/
def envSuccess : PipelineEnv :=
  ⟨strChars ("devtoken"), strChars ("usertoken"),
    fun i => if i = 0 then some exampleTrack else none, .ok, .ok,
    some (strChars ("p.456")), fun _ _ => .ok (strChars ("Added"))⟩

/-! ## Theorems -/

/-- The tenths score is capped at 10 by the final `min`. -/
theorem scoreTrackMatch_le_ten (track : CatalogTrack) (targetTrack : Str)
    (targetArtist : Option Str) :
    scoreTrackMatch track targetTrack targetArtist ≤ 10 := by
  unfold scoreTrackMatch
  exact Nat.min_le_right _ _

/-- C8: for every candidate item and every pair of target track/artist
strings, including empty strings and a missing artist, the score
computed by `scoreTrackMatch` lies within the closed interval [0, 1]. -/
theorem c8_score_in_unit_interval (track : CatalogTrack) (targetTrack : Str)
    (targetArtist : Option Str) :
    0 ≤ scoreAsRat track targetTrack targetArtist ∧
      scoreAsRat track targetTrack targetArtist ≤ 1 := by
  unfold scoreAsRat
  constructor
  · positivity
  · rw [div_le_one (by norm_num)]
    exact_mod_cast scoreTrackMatch_le_ten track targetTrack targetArtist

/-- C10: with both tokens configured, `addTracksToLibrary` on an empty
id list succeeds with an empty `trackIds` and performs no HTTP request;
and because the token checks run before the empty-list check, a missing
developer or user token yields the corresponding not-configured failure
(still without any HTTP request) even for an empty list. -/
theorem c10_addTracksToLibrary_empty_list (dev user : Str)
    (fetch : FetchOutcome) (ids : List Str) :
    (dev ≠ [] → user ≠ [] →
      addTracksToLibrary dev user fetch [] =
        (⟨true, strChars ("No tracks to add"), none, some []⟩, false)) ∧
    addTracksToLibrary [] user fetch ids =
      (⟨false, strChars ("MusicKit developer token not configured"), none,
        none⟩, false) ∧
    (dev ≠ [] →
      addTracksToLibrary dev [] fetch ids =
        (⟨false,
          strChars
            ("User token required to add tracks to library. User must authenticate with Apple Music."),
          none, none⟩, false)) := by
  refine ⟨fun h1 h2 => ?_, ?_, fun h1 => ?_⟩
  · simp [addTracksToLibrary, h1, h2]
  · simp [addTracksToLibrary]
  · simp [addTracksToLibrary, h1]

/-- Witness for C10 at concrete tokens and a concrete id list. -/
theorem c10_witness :
    addTracksToLibrary (strChars ("d")) (strChars ("u")) .ok [] =
        (⟨true, strChars ("No tracks to add"), none, some []⟩, false) ∧
      addTracksToLibrary [] (strChars ("u")) .ok [strChars ("i1")] =
        (⟨false, strChars ("MusicKit developer token not configured"), none,
          none⟩, false) ∧
      addTracksToLibrary (strChars ("d")) [] .ok [] =
        (⟨false,
          strChars
            ("User token required to add tracks to library. User must authenticate with Apple Music."),
          none, none⟩, false) :=
  ⟨(c10_addTracksToLibrary_empty_list (strChars ("d")) (strChars ("u")) .ok
      []).1 (by decide) (by decide),
    (c10_addTracksToLibrary_empty_list [] (strChars ("u")) .ok
      [strChars ("i1")]).2.1,
    (c10_addTracksToLibrary_empty_list (strChars ("d")) [] .ok []).2.2
      (by decide)⟩

/-- C5 counterexample: the code's fuzzy tier and the claimed definition
disagree.  At `("aaa aaax aaay", "aaa bbb")` the code counts the three
matching words of the first list against 60% of the smaller size and
accepts, while only 50% of the smaller list's words occur as substrings
in the other list; at `("ABC", "abc")` the claimed `clean` lowercases
and accepts, while the code's `clean` keeps case and rejects. -/
theorem c5_counterexample :
    (fuzzyMatch (strChars ("aaa aaax aaay")) (strChars ("aaa bbb")) = true ∧
      specFuzzyMatch (strChars ("aaa aaax aaay")) (strChars ("aaa bbb")) =
        false) ∧
    fuzzyMatch (strChars ("ABC")) (strChars ("abc")) = false ∧
    specFuzzyMatch (strChars ("ABC")) (strChars ("abc")) = true := by decide

/-- C5 amended: the fuzzy tier returns true exactly when the number of
words of the FIRST cleaned word-list that contain or are contained in
some word of the second cleaned word-list reaches 60% of the smaller
list's size, where `clean` strips non-word/non-space characters, removes
the stop words case-insensitively, discards words of length ≤ 2, and
performs no lowercasing. -/
theorem c5_fuzzyMatch_amended (s1 s2 : Str) :
    fuzzyMatch s1 s2 = amendedFuzzyMatch s1 s2 := by
  simp only [fuzzyMatch, amendedFuzzyMatch, List.countP_eq_length_filter]

/-- The fold underlying `best1` preserves pair consistency: a score
component equal to the score of the track component. -/
theorem bestFold_consistent (tt : Str) (ta : Option Str)
    (ts : List CatalogTrack) :
    ∀ acc : CatalogTrack × Nat, acc.2 = scoreTrackMatch acc.1 tt ta →
      (ts.foldl
        (fun acc u =>
          let su := scoreTrackMatch u tt ta
          if acc.2 < su then (u, su) else acc) acc).2 =
        scoreTrackMatch
          (ts.foldl
            (fun acc u =>
              let su := scoreTrackMatch u tt ta
              if acc.2 < su then (u, su) else acc) acc).1 tt ta := by
  induction ts with
  | nil => intro acc h; exact h
  | cons u ts ih =>
    intro acc h
    rw [List.foldl_cons]
    apply ih
    dsimp only
    split
    · rfl
    · exact h

/-- The best-scored pair of a response is consistent. -/
theorem best1_snd_eq (tt : Str) (ta : Option Str) (t : CatalogTrack)
    (ts : List CatalogTrack) :
    (best1 tt ta t ts).2 = scoreTrackMatch (best1 tt ta t ts).1 tt ta := by
  unfold best1
  exact bestFold_consistent tt ta ts _ rfl

/-- A track accepted from one response clears the threshold. -/
theorem stepFound_threshold (tt : Str) (ta : Option Str) (r : SearchResp)
    (t : CatalogTrack) (h : stepFound tt ta r = some t) :
    4 ≤ scoreTrackMatch t tt ta := by
  cases r with
  | err => exact absurd h (by simp [stepFound])
  | ok ts =>
    cases ts with
    | nil => exact absurd h (by simp [stepFound])
    | cons u us =>
      unfold stepFound at h
      dsimp only at h
      by_cases hc : 4 ≤ (best1 tt ta u us).2
      · rw [if_pos hc] at h
        have ht : (best1 tt ta u us).1 = t := by injection h
        rw [← ht]
        rw [← best1_snd_eq]
        exact hc
      · rw [if_neg hc] at h
        exact absurd h (by simp)

/-- Any track the query loop returns clears the threshold. -/
theorem runQueries_found_threshold (resp : Nat → SearchResp) (tt : Str)
    (ta : Option Str) (t : CatalogTrack) :
    ∀ (qs : List Str) (j : Nat),
      (runQueries resp tt ta qs j).2 = some t →
      4 ≤ scoreTrackMatch t tt ta := by
  intro qs
  induction qs with
  | nil => intro j h; exact absurd h (by simp [runQueries])
  | cons q rest ih =>
    intro j h
    unfold runQueries at h
    cases hs : stepFound tt ta (resp j) with
    | some u =>
      rw [hs] at h
      dsimp only at h
      have : u = t := by injection h
      exact this ▸ stepFound_threshold tt ta (resp j) u hs
    | none =>
      rw [hs] at h
      dsimp only at h
      exact ih (j + 1) h

/-- C2: whenever `smartSearchTrack` returns a non-null track, the score
the scorer assigns to that candidate against the original request is at
least the acceptance threshold 0.4; a candidate whose best score is
below 0.4 is never returned. -/
theorem c2_found_meets_threshold (nfd : Str → Str) (resp : Nat → SearchResp)
    (trackName : Str) (artistName : Option Str) (t : CatalogTrack)
    (h : (smartSearchTrack nfd resp trackName artistName).2 = some t) :
    (0.4 : ℚ) ≤ scoreAsRat t trackName artistName := by
  have h4 : 4 ≤ scoreTrackMatch t trackName artistName :=
    runQueries_found_threshold resp trackName artistName t _ 0 h
  have h10 : (4 : ℚ) ≤ (scoreTrackMatch t trackName artistName : ℚ) := by
    exact_mod_cast h4
  unfold scoreAsRat
  have h04 : (0.4 : ℚ) = 4 / 10 := by norm_num
  rw [h04]
  linarith

/-- Witness for C2: a concrete resolution that accepts an exact match,
fed to the theorem. -/
theorem c2_witness :
    (smartSearchTrack (fun s => s) (fun _ => .ok [exampleTrack])
        (strChars ("creep")) (some (strChars ("Radiohead")))).2 =
        some exampleTrack ∧
      (0.4 : ℚ) ≤ scoreAsRat exampleTrack (strChars ("creep"))
        (some (strChars ("Radiohead"))) := by
  have h : (smartSearchTrack (fun s => s) (fun _ => .ok [exampleTrack])
      (strChars ("creep")) (some (strChars ("Radiohead")))).2 =
      some exampleTrack := by decide
  exact ⟨h, c2_found_meets_threshold (fun s => s) (fun _ => .ok [exampleTrack])
    (strChars ("creep")) (some (strChars ("Radiohead"))) exampleTrack h⟩

/-- If the first `k` variants fail and the `k`-th response qualifies,
the query loop stops right there: it issues exactly the first `k + 1`
variants, each with limit 10, and returns the accepted track. -/
theorem runQueries_take (resp : Nat → SearchResp) (tt : Str)
    (ta : Option Str) (t : CatalogTrack) :
    ∀ (qs : List Str) (j k : Nat),
      (∀ m, m < k → stepFound tt ta (resp (j + m)) = none) →
      stepFound tt ta (resp (j + k)) = some t →
      k < qs.length →
      runQueries resp tt ta qs j =
        ((qs.take (k + 1)).map (fun q => (q, 10)), some t) := by
  intro qs
  induction qs with
  | nil => intro j k _ _ hk; exact absurd hk (by simp)
  | cons q rest ih =>
    intro j k hfail hq hk
    cases k with
    | zero =>
      unfold runQueries
      rw [show j + 0 = j from rfl] at hq
      rw [hq]
      simp
    | succ k =>
      have h0 : stepFound tt ta (resp j) = none := by
        have := hfail 0 (Nat.succ_pos k)
        simpa using this
      unfold runQueries
      rw [h0]
      have ih' := ih (j + 1) k
        (fun m hm => by
          have := hfail (m + 1) (Nat.succ_lt_succ hm)
          have harith : j + (m + 1) = j + 1 + m := by omega
          rwa [harith] at this)
        (by
          have harith : j + (k + 1) = j + 1 + k := by omega
          rwa [harith] at hq)
        (by simpa using Nat.lt_of_succ_lt_succ hk)
      rw [ih']
      simp

/-- C3: if the first `k` variants of a resolution do not qualify and the
`k`-th issued variant yields a best candidate scoring ≥ 0.4,
`smartSearchTrack` returns that candidate immediately: the calls issued
are exactly the first `k + 1` variants (each with limit 10) and no later
variant is searched; in particular, if the first variant qualifies
(`k = 0`), exactly one search call is made. -/
theorem c3_variant_short_circuit (nfd : Str → Str) (resp : Nat → SearchResp)
    (trackName : Str) (artistName : Option Str) (k : Nat) (t : CatalogTrack)
    (hfail : ∀ m, m < k → stepFound trackName artistName (resp m) = none)
    (hq : stepFound trackName artistName (resp k) = some t)
    (hk : k < (smartQueries nfd trackName artistName).length) :
    smartSearchTrack nfd resp trackName artistName =
      (((smartQueries nfd trackName artistName).take (k + 1)).map
        (fun q => (q, 10)), some t) := by
  unfold smartSearchTrack
  exact runQueries_take resp trackName artistName t _ 0 k
    (fun m hm => by rw [Nat.zero_add]; exact hfail m hm)
    (by rw [Nat.zero_add]; exact hq) hk

/-- Witness for C3: the first variant of a concrete resolution
qualifies, so exactly one `(query, 10)` call is issued. -/
theorem c3_witness :
    smartSearchTrack (fun s => s) (fun _ => .ok [exampleTrack])
        (strChars ("creep")) (some (strChars ("Radiohead"))) =
      (((smartQueries (fun s => s) (strChars ("creep"))
          (some (strChars ("Radiohead")))).take 1).map (fun q => (q, 10)),
        some exampleTrack) :=
  c3_variant_short_circuit (fun s => s) (fun _ => .ok [exampleTrack])
    (strChars ("creep")) (some (strChars ("Radiohead"))) 0 exampleTrack
    (fun m hm => absurd hm (Nat.not_lt_zero m)) (by decide) (by decide)

/-- C6 counterexample: a supplied artist name consisting of one space
is truthy in JavaScript but normalizes to the empty string, so
`smartSearchTrack` skips the four-variant form entirely: against a
catalog that always returns zero results it issues exactly one search
(`"x"` with limit 10), not the claimed ordered variants, and its
variant list differs from the spec's ordered list. -/
theorem c6_counterexample :
    (smartSearchTrack (fun s => s) (fun _ => SearchResp.ok [])
        (strChars ("x")) (some (strChars (" ")))).1 =
      [(strChars ("x"), 10)] ∧
    smartQueries (fun s => s) (strChars ("x")) (some (strChars (" "))) ≠
      specVariants (fun s => s) (strChars ("x")) (strChars (" ")) := by decide

/-- The trace of the query loop is always an issued prefix of the
variant list, every entry carrying limit 10. -/
theorem runQueries_trace_take (resp : Nat → SearchResp) (tt : Str)
    (ta : Option Str) :
    ∀ (qs : List Str) (j : Nat), ∃ m,
      (runQueries resp tt ta qs j).1 = (qs.take m).map (fun q => (q, 10)) := by
  intro qs
  induction qs with
  | nil => intro j; exact ⟨0, rfl⟩
  | cons q rest ih =>
    intro j
    unfold runQueries
    cases hs : stepFound tt ta (resp j) with
    | some u => exact ⟨1, by simp⟩
    | none =>
      obtain ⟨m, hm⟩ := ih (j + 1)
      refine ⟨m + 1, ?_⟩
      dsimp only
      rw [hm]
      simp

/-- C6 amended: for every track name and every supplied artist name
that is non-empty and whose normalization is non-empty (the source
guards the variant builder by JavaScript truthiness of both), the
variant list is exactly the ordered spec list — normalized
"track artist", "artist track", track alone, artist alone, then (only
if normalization changed either input) the same four raw variants — and
the catalog searches `smartSearchTrack` issues follow that order as a
leading segment, every call with a result limit of 10. -/
theorem c6_variant_order_amended (nfd : Str → Str) (trackName a : Str)
    (h1 : a ≠ []) (h2 : normalizeString nfd a ≠ []) :
    smartQueries nfd trackName (some a) = specVariants nfd trackName a ∧
    ∀ resp : Nat → SearchResp, ∃ m,
      (smartSearchTrack nfd resp trackName (some a)).1 =
        ((specVariants nfd trackName a).take m).map (fun q => (q, 10)) := by
  have he : smartQueries nfd trackName (some a) =
      specVariants nfd trackName a := by
    unfold smartQueries specVariants
    dsimp only
    rw [if_pos ⟨h1, h2⟩]
  refine ⟨he, fun resp => ?_⟩
  obtain ⟨m, hm⟩ := runQueries_trace_take resp trackName (some a)
    (smartQueries nfd trackName (some a)) 0
  refine ⟨m, ?_⟩
  unfold smartSearchTrack
  rw [hm, he]

/-- Witness for C6 at a concrete non-empty artist. -/
theorem c6_witness :
    smartQueries (fun s => s) (strChars ("creep"))
        (some (strChars ("Radiohead"))) =
      specVariants (fun s => s) (strChars ("creep"))
        (strChars ("Radiohead")) ∧
    ∀ resp : Nat → SearchResp, ∃ m,
      (smartSearchTrack (fun s => s) resp (strChars ("creep"))
          (some (strChars ("Radiohead")))).1 =
        ((specVariants (fun s => s) (strChars ("creep"))
            (strChars ("Radiohead"))).take m).map (fun q => (q, 10)) :=
  c6_variant_order_amended (fun s => s) (strChars ("creep"))
    (strChars ("Radiohead")) (by decide) (by decide)

/-- A successful index found by `firstOkAux` is at or after the start
index. -/
theorem firstOkAux_ge (script : Nat → ScriptResp) :
    ∀ (n j m : Nat), firstOkAux script n j = some m → j ≤ m := by
  intro n
  induction n with
  | zero => intro j m h; exact absurd h (by simp [firstOkAux])
  | succ n ih =>
    intro j m h
    unfold firstOkAux at h
    by_cases hc : scriptOk (script j) = true
    · rw [if_pos hc] at h
      injection h with h'
      omega
    · rw [if_neg hc] at h
      have := ih (j + 1) m h
      omega

/-- The per-item fallback loop, characterized by the first successful
invocation: it stops right after the first success (invoking exactly
the terms up to it) and exhausts the whole list otherwise. -/
theorem tryTerms_eq_firstOkAux (script : Nat → ScriptResp) :
    ∀ (terms : List Str) (j : Nat),
      tryTerms script terms j =
        match firstOkAux script terms.length j with
        | some m => (true, terms.take (m - j + 1))
        | none => (false, terms) := by
  intro terms
  induction terms with
  | nil => intro j; rfl
  | cons term rest ih =>
    intro j
    unfold tryTerms
    simp only [List.length_cons]
    unfold firstOkAux
    by_cases hc : scriptOk (script j) = true
    · rw [if_pos hc, if_pos hc]
      simp
    · rw [if_neg hc, if_neg hc]
      rw [ih (j + 1)]
      cases hf : firstOkAux script rest.length (j + 1) with
      | some m =>
        have hm : j + 1 ≤ m := firstOkAux_ge script rest.length (j + 1) m hf
        dsimp only
        have harith : m - j + 1 = (m - (j + 1) + 1) + 1 := by omega
        rw [harith]
        simp
      | none => rfl

/-- C7 amended: for each successfully library-added item, the
coordinator derives the ordered term list (track name alone;
"track artist"; "artist track"; track name followed by a space — the
album component is always empty, because step 4 rebuilds the catalog
item with an empty album), invokes the automation surface with each
term in turn, counts the item added exactly on the first success
(invoking no later term), and records a sync failure only after all
four terms are exhausted. -/
theorem c7_per_item_fallback (script : Nat → ScriptResp) (ft : FoundTrack) :
    getLibrarySearchTerms (rebuiltTrack ft) =
      [ft.name, ft.name ++ sp ++ ft.artist, ft.artist ++ sp ++ ft.name,
        ft.name ++ sp] ∧
    tryTerms script (getLibrarySearchTerms (rebuiltTrack ft)) 0 =
      match firstOk script 4 with
      | some m =>
        (true, (getLibrarySearchTerms (rebuiltTrack ft)).take (m + 1))
      | none => (false, getLibrarySearchTerms (rebuiltTrack ft)) := by
  have hterms : getLibrarySearchTerms (rebuiltTrack ft) =
      [ft.name, ft.name ++ sp ++ ft.artist, ft.artist ++ sp ++ ft.name,
        ft.name ++ sp] := by
    simp [getLibrarySearchTerms, rebuiltTrack]
  refine ⟨hterms, ?_⟩
  rw [tryTerms_eq_firstOkAux script _ 0]
  unfold firstOk
  have hlen : (getLibrarySearchTerms (rebuiltTrack ft)).length = 4 := by
    rw [hterms]
    rfl
  rw [hlen]
  cases hf : firstOkAux script 4 0 <;> simp

/-- C7 counterexample: a run whose search result has album "Album";
step 4 invokes `["Song", "Song Artist", "Artist Song", "Song "]` — the
fourth term is the track name followed by a space, not the claimed
"track album" derived from the item's catalog metadata
(`getLibrarySearchTerms albumTrack` ends in "Song Album"). -/
theorem c7_counterexample :
    (handleCreateCatalogPlaylist envAllTermsFail (strChars ("Mix"))
        [⟨strChars ("Song"), strChars ("Artist")⟩] none).2 =
        [strChars ("Song"), strChars ("Song Artist"), strChars ("Artist Song"),
          strChars ("Song ")] ∧
      (handleCreateCatalogPlaylist envAllTermsFail (strChars ("Mix"))
          [⟨strChars ("Song"), strChars ("Artist")⟩] none).2 ≠
        getLibrarySearchTerms albumTrack := by decide

/-- C4: if the step-2 bulk library add returns a non-success result,
the handler returns immediately with `tracksAdded` 0, listing only the
catalog-not-found items, and performs no per-item collection add (no
AppleScript invocation) for any item of the batch, regardless of how
many items resolved in step 1. -/
theorem c4_batch_add_failure_aborts (env : PipelineEnv) (playlistName : Str)
    (tracks : List TrackRequest) (description : Option Str)
    (hdev : env.developerToken ≠ [])
    (hfound : (splitResults env tracks 0).1 ≠ [])
    (hadd : ((addTracksToLibrary env.developerToken env.userToken env.addFetch
        ((splitResults env tracks 0).1.map FoundTrack.id)).1).success =
      false) :
    handleCreateCatalogPlaylist env playlistName tracks description =
      (⟨false,
        strChars ("Found tracks but failed to add to library: ") ++
          ((addTracksToLibrary env.developerToken env.userToken env.addFetch
            ((splitResults env tracks 0).1.map FoundTrack.id)).1).message,
        some ⟨none, playlistName, 0, (splitResults env tracks 0).2⟩,
        some ((addTracksToLibrary env.developerToken env.userToken
          env.addFetch
          ((splitResults env tracks 0).1.map FoundTrack.id)).1).message⟩,
        []) := by
  simp [handleCreateCatalogPlaylist, hdev, hfound, hadd]

/-- Witness for C4: a concrete batch of one resolving request whose
bulk add returns a 403. -/
theorem c4_witness :
    handleCreateCatalogPlaylist envBatchAddFails (strChars ("Mix"))
        [⟨strChars ("Creep"), strChars ("Radiohead")⟩] none =
      (⟨false,
        strChars ("Found tracks but failed to add to library: ") ++
          ((addTracksToLibrary envBatchAddFails.developerToken
            envBatchAddFails.userToken envBatchAddFails.addFetch
            ((splitResults envBatchAddFails
              [⟨strChars ("Creep"), strChars ("Radiohead")⟩] 0).1.map
              FoundTrack.id)).1).message,
        some ⟨none, strChars ("Mix"), 0,
          (splitResults envBatchAddFails
            [⟨strChars ("Creep"), strChars ("Radiohead")⟩] 0).2⟩,
        some ((addTracksToLibrary envBatchAddFails.developerToken
          envBatchAddFails.userToken envBatchAddFails.addFetch
          ((splitResults envBatchAddFails
            [⟨strChars ("Creep"), strChars ("Radiohead")⟩] 0).1.map
            FoundTrack.id)).1).message⟩,
        []) :=
  c4_batch_add_failure_aborts envBatchAddFails (strChars ("Mix"))
    [⟨strChars ("Creep"), strChars ("Radiohead")⟩] none (by decide)
    (by decide) (by decide)

/-- The head of a `dropWhile` fails the predicate. -/
theorem head?_dropWhile_false (p : Nat → Bool) :
    ∀ (l : Str) (x : Nat), (l.dropWhile p).head? = some x → p x = false := by
  intro l
  induction l with
  | nil => intro x h; exact absurd h (by simp)
  | cons c t ih =>
    intro x h
    cases hpc : p c with
    | true =>
      rw [List.dropWhile_cons_of_pos hpc] at h
      exact ih x h
    | false =>
      rw [List.dropWhile_cons_of_neg (by simp [hpc])] at h
      have : c = x := by injection h
      rw [← this]
      exact hpc

/-- A list whose head fails the predicate is unchanged by `dropWhile`. -/
theorem dropWhile_eq_self_of_head (p : Nat → Bool) (l : Str)
    (h : ∀ x, l.head? = some x → p x = false) : l.dropWhile p = l := by
  cases l with
  | nil => rfl
  | cons c t => exact List.dropWhile_cons_of_neg (by simp [h c rfl])

/-- `dropWhile` is idempotent. -/
theorem dropWhile_dropWhile (p : Nat → Bool) (l : Str) :
    (l.dropWhile p).dropWhile p = l.dropWhile p :=
  dropWhile_eq_self_of_head p _ (head?_dropWhile_false p l)

/-- `dropWhile` keeps a trailing segment of the list. -/
theorem dropWhile_append_eq (p : Nat → Bool) :
    ∀ l : Str, ∃ pre, pre ++ l.dropWhile p = l := by
  intro l
  induction l with
  | nil => exact ⟨[], rfl⟩
  | cons c t ih =>
    cases hpc : p c with
    | true =>
      obtain ⟨pre, hp⟩ := ih
      exact ⟨c :: pre, by rw [List.dropWhile_cons_of_pos hpc]; simpa using hp⟩
    | false =>
      exact ⟨[], by rw [List.dropWhile_cons_of_neg (by simp [hpc])]; rfl⟩

/-- The last element of a nonempty `dropWhile` is the last element of
the original list. -/
theorem getLast?_dropWhile (p : Nat → Bool) (l : Str) (x : Nat)
    (h : (l.dropWhile p).getLast? = some x) : l.getLast? = some x := by
  obtain ⟨pre, hp⟩ := dropWhile_append_eq p l
  have hne : l.dropWhile p ≠ [] := by
    intro hnil
    rw [hnil] at h
    exact absurd h (by simp)
  rw [← hp, List.getLast?_append_of_ne_nil pre hne]
  exact h

/-- `trimStr` yields a sublist of its argument. -/
theorem trimStr_sublist (s : Str) : List.Sublist (trimStr s) s := by
  unfold trimStr
  have h1 : List.Sublist (s.dropWhile isJsSpace) s :=
    List.dropWhile_sublist _
  have h2 : List.Sublist
      ((s.dropWhile isJsSpace).reverse.dropWhile isJsSpace)
      (s.dropWhile isJsSpace).reverse := List.dropWhile_sublist _
  have h3 := h2.reverse
  rw [List.reverse_reverse] at h3
  exact h3.trans h1

/-- `trimStr` is idempotent. -/
theorem trimStr_idem (s : Str) : trimStr (trimStr s) = trimStr s := by
  have h1 : ((s.dropWhile isJsSpace).reverse.dropWhile
      isJsSpace).reverse.dropWhile isJsSpace =
      ((s.dropWhile isJsSpace).reverse.dropWhile isJsSpace).reverse := by
    apply dropWhile_eq_self_of_head
    intro x hx
    rw [List.head?_reverse] at hx
    have hx' := getLast?_dropWhile isJsSpace (s.dropWhile isJsSpace).reverse
      x hx
    rw [List.getLast?_reverse] at hx'
    exact head?_dropWhile_false isJsSpace s x hx'
  show trimStr (((s.dropWhile isJsSpace).reverse.dropWhile
    isJsSpace).reverse) = _
  unfold trimStr
  rw [h1, List.reverse_reverse, dropWhile_dropWhile]

/-- Membership through `insertMark`: the inserted character, or one of
the list. -/
theorem mem_insertMark (ccc : Nat → Nat) (c : Nat) :
    ∀ (l : Str) (x : Nat), x ∈ insertMark ccc c l → x = c ∨ x ∈ l := by
  intro l
  induction l with
  | nil =>
    intro x hx
    unfold insertMark at hx
    exact Or.inl (by simpa using hx)
  | cons d rest ih =>
    intro x hx
    unfold insertMark at hx
    by_cases hb : 0 < ccc c ∧ ccc c < ccc d
    · rw [if_pos hb] at hx
      rcases List.mem_cons.mp hx with h | h
      · exact Or.inr (h ▸ List.mem_cons_self d rest)
      · rcases ih x h with h' | h'
        · exact Or.inl h'
        · exact Or.inr (List.mem_cons_of_mem d h')
    · rw [if_neg hb] at hx
      rcases List.mem_cons.mp hx with h | h
      · exact Or.inl h
      · exact Or.inr h

/-- The head of an `insertMark`: the inserted character, or the old
head. -/
theorem head?_insertMark (ccc : Nat → Nat) (c : Nat) :
    ∀ l : Str, (insertMark ccc c l).head? = some c ∨
      (insertMark ccc c l).head? = l.head? := by
  intro l
  cases l with
  | nil => exact Or.inl rfl
  | cons d rest =>
    unfold insertMark
    by_cases hb : 0 < ccc c ∧ ccc c < ccc d
    · rw [if_pos hb]
      exact Or.inr rfl
    · rw [if_neg hb]
      exact Or.inl rfl

/-- `insertMark` preserves the canonical-order chain of the reversed
accumulator. -/
theorem chain'_insertMark (ccc : Nat → Nat) (c : Nat) :
    ∀ l : Str, List.Chain' (fun a b => markLE ccc b a) l →
      List.Chain' (fun a b => markLE ccc b a) (insertMark ccc c l) := by
  intro l
  induction l with
  | nil =>
    intro _
    unfold insertMark
    simp
  | cons d rest ih =>
    intro hch
    unfold insertMark
    by_cases hb : 0 < ccc c ∧ ccc c < ccc d
    · rw [if_pos hb]
      refine List.chain'_cons'.mpr ⟨?_, ih (List.Chain'.tail hch)⟩
      intro y hy
      rcases head?_insertMark ccc c rest with hh | hh
      · rw [hh] at hy
        have hyc : c = y := by simpa using hy
        rw [← hyc]
        exact Or.inr (Nat.le_of_lt hb.2)
      · rw [hh] at hy
        exact (List.chain'_cons'.mp hch).1 y hy
    · rw [if_neg hb]
      refine List.chain'_cons'.mpr ⟨?_, hch⟩
      intro y hy
      have hyd : d = y := by simpa using hy
      rw [← hyd]
      unfold markLE
      omega

/-- The output of the ordering loop is canonically ordered. -/
theorem chain'_canonicalOrderAux (ccc : Nat → Nat) :
    ∀ (l acc : Str), List.Chain' (fun a b => markLE ccc b a) acc →
      List.Chain' (markLE ccc) (canonicalOrderAux ccc acc l) := by
  intro l
  induction l with
  | nil =>
    intro acc hacc
    unfold canonicalOrderAux
    exact List.chain'_reverse.mpr hacc
  | cons c rest ih =>
    intro acc hacc
    unfold canonicalOrderAux
    exact ih _ (chain'_insertMark ccc c acc hacc)

/-- The output of `canonicalOrder` is canonically ordered. -/
theorem chain'_canonicalOrder (ccc : Nat → Nat) (l : Str) :
    List.Chain' (markLE ccc) (canonicalOrder ccc l) :=
  chain'_canonicalOrderAux ccc l [] (by simp)

/-- The ordering loop leaves a canonically ordered string unchanged. -/
theorem canonicalOrderAux_fixed (ccc : Nat → Nat) :
    ∀ (l acc : Str), List.Chain' (markLE ccc) (acc.reverse ++ l) →
      canonicalOrderAux ccc acc l = acc.reverse ++ l := by
  intro l
  induction l with
  | nil =>
    intro acc _
    unfold canonicalOrderAux
    rw [List.append_nil]
  | cons c rest ih =>
    intro acc h
    have hins : insertMark ccc c acc = c :: acc := by
      cases acc with
      | nil => rfl
      | cons d acc2 =>
        have hdc : markLE ccc d c := by
          refine (List.chain'_append.mp h).2.2 d ?_ c rfl
          rw [List.getLast?_reverse]
          rfl
        unfold insertMark
        rw [if_neg ?_]
        unfold markLE at hdc
        omega
    unfold canonicalOrderAux
    rw [hins]
    have hassoc : (c :: acc).reverse ++ rest = acc.reverse ++ c :: rest := by
      rw [List.reverse_cons, List.append_assoc]
      rfl
    rw [ih (c :: acc) (by rw [hassoc]; exact h), hassoc]

/-- A canonically ordered string is a fixed point of `canonicalOrder`. -/
theorem canonicalOrder_fixed (ccc : Nat → Nat) (l : Str)
    (h : List.Chain' (markLE ccc) l) : canonicalOrder ccc l = l := by
  unfold canonicalOrder
  have := canonicalOrderAux_fixed ccc l [] (by simpa using h)
  simpa using this

/-- The ordering loop only rearranges: every output character comes
from the accumulator or the input. -/
theorem mem_canonicalOrderAux (ccc : Nat → Nat) :
    ∀ (l acc : Str) (x : Nat), x ∈ canonicalOrderAux ccc acc l →
      x ∈ acc ∨ x ∈ l := by
  intro l
  induction l with
  | nil =>
    intro acc x hx
    unfold canonicalOrderAux at hx
    exact Or.inl (List.mem_reverse.mp hx)
  | cons c rest ih =>
    intro acc x hx
    unfold canonicalOrderAux at hx
    rcases ih (insertMark ccc c acc) x hx with h | h
    · rcases mem_insertMark ccc c acc x h with h' | h'
      · exact Or.inr (h' ▸ List.mem_cons_self c rest)
      · exact Or.inl h'
    · exact Or.inr (List.mem_cons_of_mem c h)

/-- Every character of a canonically ordered string comes from the
input. -/
theorem mem_canonicalOrder (ccc : Nat → Nat) (l : Str) (x : Nat)
    (hx : x ∈ canonicalOrder ccc l) : x ∈ l := by
  rcases mem_canonicalOrderAux ccc l [] x hx with h | h
  · exact absurd h (by simp)
  · exact h

/-- Every character of a decomposition comes from some input
character's decomposition. -/
theorem mem_decomposeStr (decomp : Nat → List Nat) :
    ∀ (l : Str) (x : Nat), x ∈ decomposeStr decomp l →
      ∃ c ∈ l, x ∈ decomp c := by
  intro l
  induction l with
  | nil =>
    intro x hx
    exact absurd hx (by simp [decomposeStr])
  | cons c rest ih =>
    intro x hx
    unfold decomposeStr at hx
    rcases List.mem_append.mp hx with h | h
    · exact ⟨c, List.mem_cons_self c rest, h⟩
    · obtain ⟨d, hd, hxd⟩ := ih x h
      exact ⟨d, List.mem_cons_of_mem c hd, hxd⟩

/-- A string of decomposition-fixed characters is decomposition
fixed. -/
theorem decomposeStr_fixed (decomp : Nat → List Nat) :
    ∀ l : Str, (∀ x ∈ l, decomp x = [x]) → decomposeStr decomp l = l := by
  intro l
  induction l with
  | nil => intro _; rfl
  | cons c rest ih =>
    intro h
    unfold decomposeStr
    rw [h c (List.mem_cons_self c rest), ih
      (fun x hx => h x (List.mem_cons_of_mem c hx))]
    rfl

/-- Removing only non-starters never breaks canonical order: the two
characters a removal makes adjacent are bridged through the removed
non-starter. -/
theorem chain'_filter_aux (ccc : Nat → Nat) (P : Nat → Bool)
    (hP : ∀ b, P b = false → ccc b ≠ 0) :
    ∀ (l : Str) (a : Nat), List.Chain' (markLE ccc) (a :: l) →
      List.Chain' (markLE ccc) (a :: l.filter P) := by
  intro l
  induction l with
  | nil =>
    intro a _
    simp
  | cons b t ih =>
    intro a hch
    have hab : markLE ccc a b := (List.chain'_cons.mp hch).1
    have hbt : List.Chain' (markLE ccc) (b :: t) :=
      (List.chain'_cons.mp hch).2
    cases hb : P b with
    | true =>
      rw [List.filter_cons_of_pos hb]
      exact List.chain'_cons.mpr ⟨hab, ih b hbt⟩
    | false =>
      rw [List.filter_cons_of_neg (by simp [hb])]
      have hat : List.Chain' (markLE ccc) (a :: t) := by
        cases t with
        | nil => simp
        | cons e t2 =>
          have hbe : markLE ccc b e := (List.chain'_cons.mp hbt).1
          have hae : markLE ccc a e := by
            have hccb : ccc b ≠ 0 := hP b hb
            unfold markLE at hab hbe ⊢
            omega
          exact List.chain'_cons.mpr ⟨hae, (List.chain'_cons.mp hbt).2⟩
      exact ih a hat

/-- A filter that removes only non-starters preserves canonical
order. -/
theorem chain'_filter_markLE (ccc : Nat → Nat) (P : Nat → Bool)
    (hP : ∀ b, P b = false → ccc b ≠ 0) :
    ∀ l : Str, List.Chain' (markLE ccc) l →
      List.Chain' (markLE ccc) (l.filter P) := by
  intro l
  induction l with
  | nil => intro _; simp
  | cons a t ih =>
    intro hch
    cases ha : P a with
    | true =>
      rw [List.filter_cons_of_pos ha]
      exact chain'_filter_aux ccc P hP t a hch
    | false =>
      rw [List.filter_cons_of_neg (by simp [ha])]
      exact ih (List.Chain'.tail hch)

/-- `trimStr` yields a contiguous middle segment of its argument. -/
theorem trimStr_infix (s : Str) :
    ∃ pre post, pre ++ (trimStr s ++ post) = s := by
  refine ⟨s.takeWhile isJsSpace,
    ((s.dropWhile isJsSpace).reverse.takeWhile isJsSpace).reverse, ?_⟩
  conv_rhs => rw [← List.takeWhile_append_dropWhile (p := isJsSpace) (l := s)]
  congr 1
  unfold trimStr
  rw [← List.reverse_append, List.takeWhile_append_dropWhile,
    List.reverse_reverse]

/-- C9 amended: `normalizeString` is idempotent on every string for
every character-data model `(decomp, ccc)` of the NFD algorithm in
which the decomposition is fully expanded (every character of a
decomposition decomposes to itself) and every character of the stripped
block U+0300–U+036F is a non-starter.  Real Unicode violates the second
premise in exactly one character, U+034F COMBINING GRAPHEME JOINER
(class 0), and through it idempotence fails on the platform — see the
counterexample. -/
theorem c9_normalize_idem (decomp : Nat → List Nat) (ccc : Nat → Nat)
    (hdec : ∀ c, ∀ d ∈ decomp c, decomp d = [d])
    (hblock : ∀ c, 768 ≤ c → c ≤ 879 → ccc c ≠ 0) (s : Str) :
    normalizeString (nfdFull decomp ccc)
        (normalizeString (nfdFull decomp ccc) s) =
      normalizeString (nfdFull decomp ccc) s := by
  have hch0 : List.Chain' (markLE ccc) (nfdFull decomp ccc s) :=
    chain'_canonicalOrder ccc _
  have hch1 : List.Chain' (markLE ccc)
      (stripCombining (nfdFull decomp ccc s)) := by
    unfold stripCombining
    refine chain'_filter_markLE ccc _ (fun b hb => ?_) _ hch0
    have hb' : ¬(b < 768 ∨ 879 < b) := by simpa using hb
    exact hblock b (by omega) (by omega)
  have hch2 : List.Chain' (markLE ccc)
      (normalizeString (nfdFull decomp ccc) s) := by
    obtain ⟨pre, post, hpp⟩ :=
      trimStr_infix (stripCombining (nfdFull decomp ccc s))
    rw [← hpp] at hch1
    exact (List.chain'_append.mp
      ((List.chain'_append.mp hch1).2.1)).1
  have hmem : ∀ x ∈ normalizeString (nfdFull decomp ccc) s,
      decomp x = [x] := by
    intro x hx
    have hx1 : x ∈ stripCombining (nfdFull decomp ccc s) :=
      (trimStr_sublist _).subset hx
    have hx2 : x ∈ nfdFull decomp ccc s := by
      unfold stripCombining at hx1
      exact (List.mem_filter.mp hx1).1
    have hx3 : x ∈ decomposeStr decomp s := mem_canonicalOrder ccc _ x hx2
    obtain ⟨c, _, hcx⟩ := mem_decomposeStr decomp s x hx3
    exact hdec c x hcx
  have hfix : nfdFull decomp ccc (normalizeString (nfdFull decomp ccc) s) =
      normalizeString (nfdFull decomp ccc) s := by
    show canonicalOrder ccc
      (decomposeStr decomp (normalizeString (nfdFull decomp ccc) s)) = _
    rw [decomposeStr_fixed decomp _ hmem]
    exact canonicalOrder_fixed ccc _ hch2
  have hstrip : stripCombining (normalizeString (nfdFull decomp ccc) s) =
      normalizeString (nfdFull decomp ccc) s := by
    unfold stripCombining
    refine List.filter_eq_self.mpr fun a ha => ?_
    have ha' : a ∈ stripCombining (nfdFull decomp ccc s) :=
      (trimStr_sublist _).subset ha
    unfold stripCombining at ha'
    exact (List.mem_filter.mp ha').2
  calc normalizeString (nfdFull decomp ccc)
        (normalizeString (nfdFull decomp ccc) s)
      = trimStr (stripCombining (nfdFull decomp ccc
          (normalizeString (nfdFull decomp ccc) s))) := rfl
    _ = trimStr (stripCombining
        (normalizeString (nfdFull decomp ccc) s)) := by rw [hfix]
    _ = trimStr (normalizeString (nfdFull decomp ccc) s) := by rw [hstrip]
    _ = normalizeString (nfdFull decomp ccc) s := trimStr_idem _

/-- C9 counterexample, with the real Unicode character data
(`cccArabic`): on the string U+0061 U+0654 U+034F U+0655 — already
NFD-normalized, since the class-0 U+034F blocks reordering of the
surrounding classes 230 and 220 — `normalizeString` strips U+034F
(it lies inside U+0300–U+036F) and returns U+0061 U+0654 U+0655, whose
now-adjacent classes descend 230 → 220; the second application reorders
them to U+0061 U+0655 U+0654.  So `normalize(normalize(s)) ≠
normalize(s)`: the claimed idempotence fails on the platform. -/
theorem c9_counterexample :
    normalizeString (nfdFull (fun c => [c]) cccArabic)
        (normalizeString (nfdFull (fun c => [c]) cccArabic)
          [97, 1620, 847, 1621]) ≠
      normalizeString (nfdFull (fun c => [c]) cccArabic)
        [97, 1620, 847, 1621] := by decide

/-- Witness for C9 at a concrete string containing a block mark, with
the identity decomposition and a block-is-non-starter class model. -/
theorem c9_witness :
    normalizeString (nfdFull (fun c => [c]) cccBlockMarks)
        (normalizeString (nfdFull (fun c => [c]) cccBlockMarks)
          [32, 97, 769, 98, 32]) =
      normalizeString (nfdFull (fun c => [c]) cccBlockMarks)
        [32, 97, 769, 98, 32] :=
  c9_normalize_idem (fun c => [c]) cccBlockMarks (fun _ _ _ => rfl)
    (fun c h1 h2 => by simp [cccBlockMarks, h1, h2]) [32, 97, 769, 98, 32]

/-- `foundPos` steps by one exactly at found indices. -/
theorem foundPos_succ (env : PipelineEnv) (i : Nat) :
    foundPos env (i + 1) =
      foundPos env i + (if (env.search i).isSome then 1 else 0) := by
  unfold foundPos
  rw [List.range_succ, List.filter_append, List.length_append]
  congr 1
  by_cases h : (env.search i).isSome <;> simp [h]

/-- The tallies of `splitResults` and `step4` agree with the per-index
outcome classification, over any processed index range. -/
theorem pipeline_counts (env : PipelineEnv) :
    ∀ (reqs : List TrackRequest) (i : Nat),
      (step4 env.script (splitResults env reqs i).1 (foundPos env i)).1 =
          ((List.range' i reqs.length).filter
            (fun j => outcomeAt env j = SyncOutcome.addedToCollection)).length ∧
        (step4 env.script (splitResults env reqs i).1
            (foundPos env i)).2.1.length =
          ((List.range' i reqs.length).filter
            (fun j => outcomeAt env j = SyncOutcome.foundButNotAdded)).length ∧
        (splitResults env reqs i).2.length =
          ((List.range' i reqs.length).filter
            (fun j => outcomeAt env j =
              SyncOutcome.notFoundInCatalog)).length := by
  intro reqs
  induction reqs with
  | nil => intro i; exact ⟨rfl, rfl, rfl⟩
  | cons req rest ih =>
    intro i
    obtain ⟨ih1, ih2, ih3⟩ := ih (i + 1)
    have hrange : List.range' i (req :: rest).length =
        i :: List.range' (i + 1) rest.length := rfl
    cases hs : env.search i with
    | some t =>
      have hsplit : splitResults env (req :: rest) i =
          (⟨t.id, t.attributes.name, t.attributes.artistName, req.track,
            req.artist⟩ :: (splitResults env rest (i + 1)).1,
            (splitResults env rest (i + 1)).2) := by
        conv_lhs => rw [splitResults]
        rw [hs]
      have hfp : foundPos env (i + 1) = foundPos env i + 1 := by
        rw [foundPos_succ]
        simp [hs]
      have hterms : getLibrarySearchTerms
          (rebuiltTrack ⟨t.id, t.attributes.name, t.attributes.artistName,
            req.track, req.artist⟩) =
          getLibrarySearchTerms (rebuiltOf t) := rfl
      rw [hsplit, hrange]
      unfold step4
      dsimp only
      rw [hterms]
      by_cases hb : (tryTerms (env.script (foundPos env i))
          (getLibrarySearchTerms (rebuiltOf t)) 0).1 = true
      · have ho : outcomeAt env i = SyncOutcome.addedToCollection := by
          unfold outcomeAt
          rw [hs]
          dsimp only
          rw [if_pos hb]
        refine ⟨?_, ?_, ?_⟩
        · rw [if_pos hb, ← hfp, ih1, List.filter_cons]
          simp [ho] <;> omega
        · rw [if_pos hb, ← hfp, List.nil_append, ih2, List.filter_cons]
          simp [ho] <;> omega
        · rw [ih3, List.filter_cons]
          simp [ho] <;> omega
      · have ho : outcomeAt env i = SyncOutcome.foundButNotAdded := by
          unfold outcomeAt
          rw [hs]
          dsimp only
          rw [if_neg hb]
        refine ⟨?_, ?_, ?_⟩
        · rw [if_neg hb, ← hfp, ih1, List.filter_cons]
          simp [ho] <;> omega
        · rw [if_neg hb, ← hfp, List.length_append, ih2, List.filter_cons]
          simp [ho] <;> omega
        · rw [ih3, List.filter_cons]
          simp [ho] <;> omega
    | none =>
      have hsplit : splitResults env (req :: rest) i =
          ((splitResults env rest (i + 1)).1,
            req :: (splitResults env rest (i + 1)).2) := by
        conv_lhs => rw [splitResults]
        rw [hs]
      have hfp : foundPos env (i + 1) = foundPos env i := by
        rw [foundPos_succ]
        simp [hs]
      have ho : outcomeAt env i = SyncOutcome.notFoundInCatalog := by
        unfold outcomeAt
        rw [hs]
      rw [hsplit, hrange]
      refine ⟨?_, ?_, ?_⟩
      · rw [← hfp, ih1, List.filter_cons]
        simp [ho] <;> omega
      · rw [← hfp, ih2, List.filter_cons]
        simp [ho] <;> omega
      · rw [List.length_cons, ih3, List.filter_cons]
        simp [ho] <;> omega

/-- Each index carries exactly one outcome, so the three filtered index
lists partition any list of indices. -/
theorem filter_outcome_partition (env : PipelineEnv) :
    ∀ l : List Nat,
      (l.filter
          (fun i => outcomeAt env i = SyncOutcome.addedToCollection)).length +
        ((l.filter
          (fun i => outcomeAt env i =
            SyncOutcome.notFoundInCatalog)).length +
          (l.filter
            (fun i => outcomeAt env i =
              SyncOutcome.foundButNotAdded)).length) = l.length := by
  intro l
  induction l with
  | nil => rfl
  | cons a l ih =>
    rw [List.filter_cons, List.filter_cons, List.filter_cons]
    cases h : outcomeAt env a <;> simp [h] <;> omega

/-- C1 amended: on every run of the pipeline that completes the
per-item phase (the handler returns `success`), the reported tallies
partition the batch: `tracksAdded` counts exactly the added indices,
`tracksNotFound` lists exactly the not-found-in-catalog and
failed-to-sync indices, the three index sets are pairwise disjoint, and
the counts sum to N.  (On the batch-add-failure and playlist-creation-
failure paths the partition does not hold — see the counterexample.) -/
theorem c1_partition_on_success (env : PipelineEnv) (playlistName : Str)
    (tracks : List TrackRequest) (description : Option Str)
    (hsucc : ((handleCreateCatalogPlaylist env playlistName tracks
      description).1).success = true) :
    ∃ d : PipelineData,
      ((handleCreateCatalogPlaylist env playlistName tracks
        description).1).data = some d ∧
      d.tracksAdded = (addedIdx env tracks.length).length ∧
      d.tracksNotFound.length =
        (notFoundIdx env tracks.length).length +
          (failedIdx env tracks.length).length ∧
      d.tracksAdded + d.tracksNotFound.length = tracks.length ∧
      (∀ i, i ∈ addedIdx env tracks.length →
        i ∉ failedIdx env tracks.length) ∧
      (∀ i, i ∈ addedIdx env tracks.length →
        i ∉ notFoundIdx env tracks.length) ∧
      (∀ i, i ∈ failedIdx env tracks.length →
        i ∉ notFoundIdx env tracks.length) := by
  by_cases h1 : env.developerToken = []
  · exfalso
    simp [handleCreateCatalogPlaylist, h1] at hsucc
  by_cases h2 : (splitResults env tracks 0).1 = []
  · exfalso
    simp [handleCreateCatalogPlaylist, h1, h2] at hsucc
  by_cases h3 : ((addTracksToLibrary env.developerToken env.userToken
      env.addFetch ((splitResults env tracks 0).1.map
        FoundTrack.id)).1).success = true
  swap
  · exfalso
    rw [Bool.not_eq_true] at h3
    simp [handleCreateCatalogPlaylist, h1, h2, h3] at hsucc
  by_cases h4 : (createPlaylistWithTracks env.developerToken env.userToken
      env.createFetch env.createPlaylistId playlistName []
      description).success = true
  swap
  · exfalso
    rw [Bool.not_eq_true] at h4
    simp [handleCreateCatalogPlaylist, h1, h2, h3, h4] at hsucc
  have hout : ((handleCreateCatalogPlaylist env playlistName tracks
      description).1).data =
      some ⟨(createPlaylistWithTracks env.developerToken env.userToken
          env.createFetch env.createPlaylistId playlistName []
          description).playlistId, playlistName,
        (step4 env.script (splitResults env tracks 0).1 0).1,
        (splitResults env tracks 0).2 ++
          (step4 env.script (splitResults env tracks 0).1 0).2.1⟩ := by
    simp [handleCreateCatalogPlaylist, h1, h2, h3, h4]
  have hcounts := pipeline_counts env tracks 0
  have hfp0 : foundPos env 0 = 0 := rfl
  rw [hfp0] at hcounts
  obtain ⟨hc1, hc2, hc3⟩ := hcounts
  have hadded : (addedIdx env tracks.length).length =
      (step4 env.script (splitResults env tracks 0).1 0).1 := by
    rw [addedIdx, List.range_eq_range', hc1]
  have hfailed : (failedIdx env tracks.length).length =
      (step4 env.script (splitResults env tracks 0).1 0).2.1.length := by
    rw [failedIdx, List.range_eq_range', hc2]
  have hnf : (notFoundIdx env tracks.length).length =
      (splitResults env tracks 0).2.length := by
    rw [notFoundIdx, List.range_eq_range', hc3]
  refine ⟨_, hout, ?_, ?_, ?_, ?_, ?_, ?_⟩
  · exact hadded.symm
  · dsimp only
    rw [List.length_append, hnf, hfailed]
  · dsimp only
    rw [List.length_append, ← hadded, ← hnf, ← hfailed]
    have hp := filter_outcome_partition env (List.range tracks.length)
    rw [List.length_range] at hp
    exact hp
  · intro i hi hif
    rw [addedIdx, List.mem_filter] at hi
    rw [failedIdx, List.mem_filter] at hif
    have e1 := of_decide_eq_true hi.2
    have e2 := of_decide_eq_true hif.2
    rw [e1] at e2
    exact absurd e2 (by simp)
  · intro i hi hif
    rw [addedIdx, List.mem_filter] at hi
    rw [notFoundIdx, List.mem_filter] at hif
    have e1 := of_decide_eq_true hi.2
    have e2 := of_decide_eq_true hif.2
    rw [e1] at e2
    exact absurd e2 (by simp)
  · intro i hi hif
    rw [failedIdx, List.mem_filter] at hi
    rw [notFoundIdx, List.mem_filter] at hif
    have e1 := of_decide_eq_true hi.2
    have e2 := of_decide_eq_true hif.2
    rw [e1] at e2
    exact absurd e2 (by simp)

/-- C1 counterexample: a batch of N = 1 request that resolves in step 1
while the step-2 bulk add fails.  The output reports `tracksAdded = 0`
and an empty `tracksNotFound` (failed-to-sync entries only ever appear
inside `tracksNotFound`), so the reported outcome counts sum to 0, not
to N = 1: the claimed partition fails on the batch-add-failure path. -/
theorem c1_counterexample :
    (((handleCreateCatalogPlaylist envBatchAddFails (strChars ("Mix"))
        [⟨strChars ("Creep"), strChars ("Radiohead")⟩] none).1).data.map
      (fun d => d.tracksAdded + d.tracksNotFound.length)) = some 0 ∧
      ([⟨strChars ("Creep"), strChars ("Radiohead")⟩] :
        List TrackRequest).length = 1 := by decide

/-- Witness for C1 at a concrete successful two-request run (one
request resolves and syncs, one is never found in the catalog). -/
theorem c1_witness :
    ∃ d : PipelineData,
      ((handleCreateCatalogPlaylist envSuccess (strChars ("Mix"))
        [⟨strChars ("Creep"), strChars ("Radiohead")⟩,
          ⟨strChars ("Nope"), strChars ("Nobody")⟩] none).1).data = some d ∧
      d.tracksAdded =
        (addedIdx envSuccess
          ([⟨strChars ("Creep"), strChars ("Radiohead")⟩,
            ⟨strChars ("Nope"), strChars ("Nobody")⟩] :
              List TrackRequest).length).length ∧
      d.tracksNotFound.length =
        (notFoundIdx envSuccess
          ([⟨strChars ("Creep"), strChars ("Radiohead")⟩,
            ⟨strChars ("Nope"), strChars ("Nobody")⟩] :
              List TrackRequest).length).length +
          (failedIdx envSuccess
            ([⟨strChars ("Creep"), strChars ("Radiohead")⟩,
              ⟨strChars ("Nope"), strChars ("Nobody")⟩] :
                List TrackRequest).length).length ∧
      d.tracksAdded + d.tracksNotFound.length =
        ([⟨strChars ("Creep"), strChars ("Radiohead")⟩,
          ⟨strChars ("Nope"), strChars ("Nobody")⟩] :
            List TrackRequest).length ∧
      (∀ i, i ∈ addedIdx envSuccess
          ([⟨strChars ("Creep"), strChars ("Radiohead")⟩,
            ⟨strChars ("Nope"), strChars ("Nobody")⟩] :
              List TrackRequest).length →
        i ∉ failedIdx envSuccess
          ([⟨strChars ("Creep"), strChars ("Radiohead")⟩,
            ⟨strChars ("Nope"), strChars ("Nobody")⟩] :
              List TrackRequest).length) ∧
      (∀ i, i ∈ addedIdx envSuccess
          ([⟨strChars ("Creep"), strChars ("Radiohead")⟩,
            ⟨strChars ("Nope"), strChars ("Nobody")⟩] :
              List TrackRequest).length →
        i ∉ notFoundIdx envSuccess
          ([⟨strChars ("Creep"), strChars ("Radiohead")⟩,
            ⟨strChars ("Nope"), strChars ("Nobody")⟩] :
              List TrackRequest).length) ∧
      (∀ i, i ∈ failedIdx envSuccess
          ([⟨strChars ("Creep"), strChars ("Radiohead")⟩,
            ⟨strChars ("Nope"), strChars ("Nobody")⟩] :
              List TrackRequest).length →
        i ∉ notFoundIdx envSuccess
          ([⟨strChars ("Creep"), strChars ("Radiohead")⟩,
            ⟨strChars ("Nope"), strChars ("Nobody")⟩] :
              List TrackRequest).length) :=
  c1_partition_on_success envSuccess (strChars ("Mix"))
    [⟨strChars ("Creep"), strChars ("Radiohead")⟩,
      ⟨strChars ("Nope"), strChars ("Nobody")⟩] none (by decide)

end MusicMcp
